import Mathlib

/-!
Verification development for the getSQLServerDiagnostics repository.

The repository contains three revisions of one straight-line pipeline:
read a catalog of named SQL queries, execute each against a SQL Server
database, and render the results into a spreadsheet workbook (directly,
or via CSV staging files that are merged afterwards).

Shallow embedding of the pipeline logic:
- `createSheetName` embeds the worksheet-name sanitizer of the final
  revision (src/unnamed/part_000, `createSheetName`, lines 479-512);
- `createFileName` embeds the staging-file-name sanitizer of the
  CSV-staging revision (src/golang/getSQLServerDiagnostics/app.go,
  `createFileName`, lines 694-704);
- `renderCellExcel`, `renderCellCSV`, `renderCellCSVv0` embed the three
  per-cell value renderers (part_000 `executeQueryToExcel` lines
  425-441, app.go `executeQuery` lines 551-562, part_001 `executeQuery`
  lines 172-177);
- `indexSheet` embeds the writing of the `executed_queries` index unit
  (part_000 lines 226-240, app.go lines 204-219);
- `executeSQLQueriesAndCreateExcel` embeds the direct-to-workbook run
  loop of the final revision (part_000 lines 222-263), with query
  execution abstracted as an oracle from catalog position to an
  optional tabular result (`none` models a failing `db.Query`);
- `mergeOrder` / `mergeSheetNames` embed the staging-merge sheet
  assembly of the CSV-staging revision (app.go `createExcelFromCSV`,
  lines 292-367);
- `mainTrace` embeds the repeat-mode scheduling of the final revision's
  `main` (part_000 lines 153-173).

Strings are modelled at the character level; the Go code only ever
slices and compares ASCII text produced by its own sanitizers, where
bytes and characters coincide.  Go's `int` is modelled as `Int`
(overflow is out of scope for the claims considered here); Go integer
division truncates toward zero, which on `Int` is `Int.tdiv`.  The
spreadsheet writer (excelize) is an external collaborator: a workbook
is a list of sheets, and `f.NewSheet` appends one.  `sort.SliceStable`
is modelled by a stable insertion sort over the source's comparator.
-/

/-- Character predicate for the Go regular expression character class
`[\\\/\?\*\[\]:]` used in `createSheetName` (characters Excel forbids
in sheet names). -/
def excelForbidden (c : Char) : Bool :=
  c == '\\' || c == '/' || c == '?' || c == '*' || c == '[' || c == ']' || c == ':'

/-- Character predicate for the Go regular expression character class
`[a-zA-Z0-9_]`; `createSheetName` and `createFileName` delete every
character outside this class. -/
def isWordChar (c : Char) : Bool :=
  (decide ('a' ≤ c) && decide (c ≤ 'z')) ||
  (decide ('A' ≤ c) && decide (c ≤ 'Z')) ||
  (decide ('0' ≤ c) && decide (c ≤ '9')) ||
  c == '_'

/-- Replacement of spaces by underscores followed by deletion of the
Excel-forbidden characters and of all remaining non-word characters:
the three sanitation passes of `createSheetName` (part_000 lines
481-490), at the character level.  Deleting every run matched by
`[...]+` with the empty string deletes exactly the individual matching
characters, so the regex passes are character filters. -/
def sanitizeChars (cs : List Char) : List Char :=
  ((cs.map (fun c => if c = ' ' then '_' else c)).filter
    (fun c => ! excelForbidden c)).filter isWordChar

/-- Sanitation passes of `createFileName` (app.go lines 696-700):
spaces to underscores, then deletion of non-word characters.  This
variant has no Excel-forbidden-character pass. -/
def fileSanitize (cs : List Char) : List Char :=
  (cs.map (fun c => if c = ' ' then '_' else c)).filter isWordChar

/-- Decimal digit character for a value below ten; models the digits
produced by Go's `%d` and `strconv.Itoa`. -/
def natDigitChar : Nat → Char
  | 0 => '0'
  | 1 => '1'
  | 2 => '2'
  | 3 => '3'
  | 4 => '4'
  | 5 => '5'
  | 6 => '6'
  | 7 => '7'
  | 8 => '8'
  | _ => '9'

/-- Accumulator version of decimal rendering of a natural number,
structurally recursive on a fuel argument (the same shape as Lean
core's `Nat.toDigitsCore`); any fuel above the value is enough. -/
def natDecAux : Nat → Nat → List Char → List Char
  | 0, _, acc => acc
  | fuel + 1, n, acc =>
    if n < 10 then natDigitChar n :: acc
    else natDecAux fuel (n / 10) (natDigitChar (n % 10) :: acc)

/-- Decimal rendering of a natural number as a character list; models
Go's `fmt.Sprintf("%d", n)` and `strconv.Itoa(n)` for non-negative
values (every position the program formats is at least 1). -/
def natDec (n : Nat) : List Char := natDecAux (n + 1) n []

/-- String form of `natDec`. -/
def natStr (n : Nat) : String := ⟨natDec n⟩

/-- Worksheet-name sanitizer of the final revision (part_000,
`createSheetName`, lines 479-512).  The `maxNameLength` variable is a
Go `int` and may be negative, hence `Int` here; Go's byte slicing
`queryName[:maxNameLength]` is `List.take` because the sanitized name
is ASCII-only. -/
def createSheetName (index : Nat) (queryName : String) : String :=
  let q := sanitizeChars queryName.data
  let sheet := natDec index ++ '_' :: q
  if sheet.length > 31 then
    let indexPart := natDec index ++ ['_']
    let maxNameLength : Int := 31 - indexPart.length
    if maxNameLength > 0 then
      ⟨indexPart ++ q.take maxNameLength.toNat⟩
    else
      let digitsOnly := natDec index
      if digitsOnly.length > 31 then ⟨digitsOnly.take 31⟩ else ⟨digitsOnly⟩
  else ⟨sheet⟩

/-- Staging-file-name sanitizer of the CSV-staging revision (app.go,
`createFileName`, lines 694-704): no length cap, fixed `.csv` suffix,
no Excel-forbidden-character pass. -/
def createFileName (index : Nat) (queryName : String) : String :=
  ⟨natDec index ++ '_' :: (fileSanitize queryName.data ++ ".csv".data)⟩

/-- Numeric value of a decimal digit character, as computed by decimal
string parsing. -/
def dval (c : Char) : Nat := c.toNat - 48

/-- Value of a decimal digit string (most significant digit first). -/
def digitsVal (cs : List Char) : Nat := cs.foldl (fun a c => a * 10 + dval c) 0

/-- Model of Go's `strconv.Atoi` (app.go line 318): an optional sign
followed by at least one decimal digit parses to its value; anything
else is an error.  64-bit range checking is out of scope. -/
def atoi (s : String) : Option Int :=
  match s.data with
  | [] => none
  | c :: rest =>
    if c = '+' then
      if rest ≠ [] ∧ rest.all Char.isDigit then some (Int.ofNat (digitsVal rest)) else none
    else if c = '-' then
      if rest ≠ [] ∧ rest.all Char.isDigit then some (-Int.ofNat (digitsVal rest)) else none
    else if (c :: rest).all Char.isDigit then some (Int.ofNat (digitsVal (c :: rest))) else none

/-- Characters before the first underscore: models
`strings.SplitN(name, "_", 2)[0]` (app.go lines 318-319). -/
def untilUnderscore (cs : List Char) : List Char := cs.takeWhile (fun c => c != '_')

/-- Numeric prefix of a staging-file name, as extracted by the custom
sort in `createExcelFromCSV` (app.go lines 316-325). -/
def numKey (s : String) : Option Int := atoi ⟨untilUnderscore s.data⟩

/-- The `less` comparator passed to `sort.SliceStable` in
`createExcelFromCSV` (app.go lines 316-325): compare numeric prefixes
when both parse, otherwise compare the names lexicographically. -/
def goLess (a b : String) : Bool :=
  match numKey a, numKey b with
  | some x, some y => decide (x < y)
  | _, _ => decide (a < b)

/-- Non-strict companion of `goLess`: `a` need not come after `b`.  A
stable sort by `goLess` orders adjacent elements by this relation. -/
def goLe (a b : String) : Bool := ! goLess b a

/-- Stable insertion of an element into a list: the element goes in
front of the first entry it is `goLe`-below. -/
def insertLe (a : String) : List String → List String
  | [] => [a]
  | b :: l => if goLe a b then a :: b :: l else b :: insertLe a l

/-- Stable insertion sort with the `goLess` comparator; models the
`sort.SliceStable` call of `createExcelFromCSV`. -/
def sortLe : List String → List String
  | [] => []
  | a :: l => insertLe a (sortLe l)

/-- Model of `strings.HasSuffix(name, ".csv")` (app.go line 302). -/
def hasCsvSuffix (s : String) : Bool :=
  decide (4 ≤ s.data.length) && (s.data.drop (s.data.length - 4) == ".csv".data)

/-- Model of `strings.TrimSuffix(csvFile, ".csv")` (app.go line 352). -/
def trimCsv (s : String) : String :=
  if hasCsvSuffix s then ⟨s.data.take (s.data.length - 4)⟩ else s

/-- Sheet order produced by `createExcelFromCSV` (app.go lines
292-333) from a directory listing: keep the `.csv` files, set
`executed_queries.csv` aside, stable-sort the rest by numeric prefix,
and put `executed_queries.csv` first. -/
def mergeOrder (listing : List String) : List String :=
  let csvFiles := listing.filter hasCsvSuffix
  let otherFiles := csvFiles.filter (fun f => f != "executed_queries.csv")
  "executed_queries.csv" :: sortLe otherFiles

/-- Worksheet names created by `createExcelFromCSV` (app.go lines
351-357): the merge order with the `.csv` extension removed. -/
def mergeSheetNames (listing : List String) : List String :=
  (mergeOrder listing).map trimCsv

/-- A database cell value as scanned by `rows.Scan` into an
`interface` box: SQL NULL, a byte slice, or any other scalar carried
here as its Go default (`%v`) text representation. -/
inductive Cell
  | null : Cell
  | bytes : List Nat → Cell
  | scalar : String → Cell
deriving DecidableEq

/-- Go's `string(b)` conversion of a byte slice: the bytes are copied
verbatim.  Each byte is modelled as one character; for the ASCII range
(all the program's line-feed and carriage-return handling) byte and
character coincide. -/
def decodeBytes (bs : List Nat) : String := ⟨bs.map Char.ofNat⟩

/-- The two nested `strings.ReplaceAll` calls that replace every
line-feed and carriage-return with a space (part_000 lines 433 and
437, app.go lines 558 and 560, part_001 line 176).  A
single-character pattern makes `ReplaceAll` a character-wise map. -/
def cleanChars (cs : List Char) : List Char :=
  (cs.map (fun c => if c = '\n' then ' ' else c)).map (fun c => if c = '\r' then ' ' else c)

/-- String form of `cleanChars`. -/
def cleanText (s : String) : String := ⟨cleanChars s.data⟩

/-- Cell rendering of the direct-to-workbook revision (part_000,
`executeQueryToExcel`, lines 429-439): NULL becomes the literal text
`NULL`; byte slices are decoded and cleaned; other scalars are
formatted with `%v` (the carried representation) and cleaned. -/
def renderCellExcel : Cell → String
  | Cell.null => "NULL"
  | Cell.bytes bs => cleanText (decodeBytes bs)
  | Cell.scalar v => cleanText v

/-- Cell rendering of the CSV-staging revision (app.go,
`executeQuery`, lines 554-561); textually the same rule as
`renderCellExcel`. -/
def renderCellCSV : Cell → String
  | Cell.null => "NULL"
  | Cell.bytes bs => cleanText (decodeBytes bs)
  | Cell.scalar v => cleanText v

/-- Go's `fmt.Sprintf("%v", v)` on a scanned cell: a nil interface
prints `<nil>`, a byte slice prints its decimal bytes in brackets,
and any other scalar prints its default representation. -/
def goFmtV : Cell → String
  | Cell.null => "<nil>"
  | Cell.bytes bs => "[" ++ String.intercalate " " (bs.map natStr) ++ "]"
  | Cell.scalar v => v

/-- Cell rendering of the earliest revision (part_001, `executeQuery`,
line 176): every value, NULL and byte slices included, goes through
`fmt.Sprintf("%v", ...)` before the line-feed/carriage-return
cleanup. -/
def renderCellCSVv0 (c : Cell) : String := cleanText (goFmtV c)

/-- One catalog entry of the queries JSON file (`Query` struct,
part_000 lines 667-672). -/
structure Query where
  Name : String
  Description : String
  Query : String
  Notes : String
deriving DecidableEq

/-- Result set of one executed statement: column names in engine
order, and rows of scanned cells. -/
structure TabularResult where
  columns : List String
  rows : List (List Cell)
deriving DecidableEq

/-- Sheet contents written by `executeQueryToExcel` (part_000 lines
403-441) for one successful query: the column names as row 1, then one
rendered row per scanned row. -/
def renderSheet (t : TabularResult) : List (List String) :=
  t.columns :: t.rows.map (fun row => row.map renderCellExcel)

/-- The `executed_queries` index sheet (part_000 lines 229-240; the
CSV-staging revisions write the same rows into
`executed_queries.csv`, app.go lines 208-219): a fixed header row,
then, per catalog entry in order, a row with the 1-based position, the
raw SQL statement text, and the notes.  The fold mirrors the `for i,
query := range queries.Queries` loop writing row `i+2`. -/
def indexSheet (qs : List Query) : List (List String) :=
  qs.enum.foldl
    (fun acc iq => acc ++ [[natStr (iq.1 + 1), iq.2.Query, iq.2.Notes]])
    [["Sr.No", "Query", "Query Notes"]]

/-- Outcome of a direct-to-workbook run: the workbook as an ordered
list of named sheets, and the 0-based positions of the catalog entries
whose execution failed (they are logged and skipped). -/
structure RunResult where
  sheets : List (String × List (List String))
  failed : List Nat
deriving DecidableEq

/-- One iteration of the query loop of
`executeSQLQueriesAndCreateExcel` (part_000 lines 243-255): compute
the sheet name, run the query; a failure is logged (`continue`), a
success appends a populated sheet.  `executeQueryToExcel` returns on
the query error before `f.NewSheet`, so a failing entry creates no
sheet at all. -/
def runStep (exec : Nat → Option TabularResult) (acc : RunResult) (iq : Nat × Query) :
    RunResult :=
  match exec iq.1 with
  | none => { acc with failed := acc.failed ++ [iq.1] }
  | some t =>
      { acc with
        sheets := acc.sheets ++ [(createSheetName (iq.1 + 1) iq.2.Name, renderSheet t)] }

/-- Direct-to-workbook run of the final revision (part_000,
`executeSQLQueriesAndCreateExcel`, lines 222-263): `Sheet1` is renamed
to `executed_queries` and filled with the index rows, then the query
loop appends one sheet per successful catalog entry. -/
def executeSQLQueriesAndCreateExcel (qs : List Query)
    (exec : Nat → Option TabularResult) : RunResult :=
  qs.enum.foldl (runStep exec) ⟨[("executed_queries", indexSheet qs)], []⟩

/-- Staging-file names produced by the query loop of
`executeSQLQueries` (app.go lines 213-236): `fileCounter` starts at 1
and increments once per entry. -/
def stagingFiles (qs : List Query) : List String :=
  qs.enum.map (fun iq => createFileName (iq.1 + 1) iq.2.Name)

/-- Observable event of one `main` invocation in the final revision:
a full run of the pipeline, or an inter-iteration sleep. -/
inductive Event
  | run : Event
  | sleep : Event
deriving DecidableEq

/-- Discriminator for `Event.run`. -/
def Event.isRun : Event → Bool
  | Event.run => true
  | Event.sleep => false

/-- Discriminator for `Event.sleep`. -/
def Event.isSleep : Event → Bool
  | Event.run => false
  | Event.sleep => true

/-- Number of full pipeline runs in an event trace. -/
def countRun (l : List Event) : Nat := (l.filter Event.isRun).length

/-- Number of sleeps in an event trace. -/
def countSleep (l : List Event) : Nat := (l.filter Event.isSleep).length

/-- Body of the repeat loop `for i := 0; i < totalIterations; i++`
(part_000 lines 158-166), producing the trace of events from loop
index `i` on: each iteration runs the pipeline, and sleeps only when
`i < totalIterations-1`.  Structurally recursive on a fuel argument;
`totalIterations` itself is enough fuel. -/
def loopFrom (total : Nat) : Nat → Nat → List Event
  | 0, _ => []
  | fuel + 1, i =>
    if i < total then
      Event.run :: ((if i < total - 1 then [Event.sleep] else []) ++ loopFrom total fuel (i + 1))
    else []

/-- Event trace of the whole repeat loop. -/
def loopTrace (total : Nat) : List Event := loopFrom total total 0

/-- Scheduling of `main` in the final revision (part_000 lines
153-173): when both the interval flag and the duration flag are
strictly positive, run `(duration*60)/interval` iterations with a
sleep between consecutive ones; otherwise run the pipeline exactly
once.  Go `int` division truncates toward zero (`Int.tdiv`); the loop
bound `i < totalIterations` makes a non-positive bound run zero
iterations, which `Int.toNat` captures. -/
def mainTrace (interval duration : Int) : List Event :=
  if 0 < interval ∧ 0 < duration then
    loopTrace ((duration * 60).tdiv interval).toNat
  else [Event.run]

/-- Canonical alternating trace: `n` runs separated by single sleeps,
no sleep after the last run. -/
def alternate : Nat → List Event
  | 0 => []
  | 1 => [Event.run]
  | n + 2 => Event.run :: Event.sleep :: alternate (n + 1)

/-- Both names carry a parsed numeric prefix and the first is
strictly below the second; the order `createExcelFromCSV`'s sort
establishes on the staging files. -/
def keyLt (a b : String) : Prop :=
  ∃ x y, numKey a = some x ∧ numKey b = some y ∧ x < y

/-- Non-strict version of `keyLt`. -/
def keyLe (a b : String) : Prop :=
  ∃ x y, numKey a = some x ∧ numKey b = some y ∧ x ≤ y

/-- The parsed numeric prefixes of the two names differ. -/
def keyNe (a b : String) : Prop :=
  ∀ x y, numKey a = some x → numKey b = some y → x ≠ y

/-! ### Decimal rendering: basic facts -/

theorem natDigitChar_word : ∀ m, isWordChar (natDigitChar m) = true
  | 0 => by decide
  | 1 => by decide
  | 2 => by decide
  | 3 => by decide
  | 4 => by decide
  | 5 => by decide
  | 6 => by decide
  | 7 => by decide
  | 8 => by decide
  | _ + 9 => by rfl

theorem natDigitChar_isDigit : ∀ m, (natDigitChar m).isDigit = true
  | 0 => by decide
  | 1 => by decide
  | 2 => by decide
  | 3 => by decide
  | 4 => by decide
  | 5 => by decide
  | 6 => by decide
  | 7 => by decide
  | 8 => by decide
  | _ + 9 => by rfl

theorem natDigitChar_ne_underscore : ∀ m, natDigitChar m ≠ '_'
  | 0 => by decide
  | 1 => by decide
  | 2 => by decide
  | 3 => by decide
  | 4 => by decide
  | 5 => by decide
  | 6 => by decide
  | 7 => by decide
  | 8 => by decide
  | _ + 9 => by
    intro h
    have h9 : ('9' : Char) = '_' := h
    exact absurd h9 (by decide)

theorem natDigitChar_ne_plus : ∀ m, natDigitChar m ≠ '+'
  | 0 => by decide
  | 1 => by decide
  | 2 => by decide
  | 3 => by decide
  | 4 => by decide
  | 5 => by decide
  | 6 => by decide
  | 7 => by decide
  | 8 => by decide
  | _ + 9 => by
    intro h
    have h9 : ('9' : Char) = '+' := h
    exact absurd h9 (by decide)

theorem natDigitChar_ne_minus : ∀ m, natDigitChar m ≠ '-'
  | 0 => by decide
  | 1 => by decide
  | 2 => by decide
  | 3 => by decide
  | 4 => by decide
  | 5 => by decide
  | 6 => by decide
  | 7 => by decide
  | 8 => by decide
  | _ + 9 => by
    intro h
    have h9 : ('9' : Char) = '-' := h
    exact absurd h9 (by decide)

theorem dval_natDigitChar (m : Nat) (h : m < 10) : dval (natDigitChar m) = m := by
  interval_cases m <;> decide

theorem natDecAux_fuel : ∀ (f₁ f₂ n : Nat) (acc : List Char), n < f₁ → n < f₂ →
    natDecAux f₁ n acc = natDecAux f₂ n acc
  | 0, _, n, _, h, _ => absurd h (Nat.not_lt_zero n)
  | _ + 1, 0, n, _, _, h => absurd h (Nat.not_lt_zero n)
  | f₁ + 1, f₂ + 1, n, acc, h₁, h₂ => by
    simp only [natDecAux]
    by_cases h : n < 10
    · simp [h]
    · simp only [if_neg h]
      exact natDecAux_fuel f₁ f₂ (n / 10) _ (by omega) (by omega)

theorem natDecAux_append : ∀ (f n : Nat) (acc : List Char), n < f →
    natDecAux f n acc = natDecAux f n [] ++ acc
  | 0, n, _, h => absurd h (Nat.not_lt_zero n)
  | f + 1, n, acc, _ => by
    simp only [natDecAux]
    by_cases h : n < 10
    · simp [h]
    · simp only [if_neg h]
      by_cases hf : n / 10 < f
      · rw [natDecAux_append f (n / 10) (natDigitChar (n % 10) :: acc) hf,
          natDecAux_append f (n / 10) [natDigitChar (n % 10)] hf, List.append_assoc]
        rfl
      · cases f with
        | zero => rfl
        | succ f => omega

theorem natDec_eq (n : Nat) :
    natDec n = if n < 10 then [natDigitChar n] else natDec (n / 10) ++ [natDigitChar (n % 10)] := by
  by_cases h : n < 10
  · simp [natDec, natDecAux, h]
  · simp only [if_neg h]
    show natDecAux (n + 1) n [] = _
    have step : natDecAux (n + 1) n [] = natDecAux n (n / 10) [natDigitChar (n % 10)] := by
      simp [natDecAux, h]
    rw [step, natDecAux_fuel n (n / 10 + 1) (n / 10) _ (by omega) (by omega)]
    exact natDecAux_append (n / 10 + 1) (n / 10) _ (by omega)

theorem natDec_ne_nil (n : Nat) : natDec n ≠ [] := by
  rw [natDec_eq n]
  by_cases h : n < 10
  · simp [h]
  · simp [h]

theorem natDec_mem (n : Nat) : ∀ c ∈ natDec n, ∃ m, c = natDigitChar m := by
  induction n using Nat.strong_induction_on with
  | _ n ih =>
    intro c hc
    rw [natDec_eq n] at hc
    by_cases h : n < 10
    · rw [if_pos h] at hc
      simp only [List.mem_singleton] at hc
      exact ⟨n, hc⟩
    · rw [if_neg h] at hc
      rcases List.mem_append.mp hc with hl | hr
      · exact ih (n / 10) (by omega) c hl
      · simp only [List.mem_singleton] at hr
        exact ⟨n % 10, hr⟩

theorem digitsVal_concat (cs : List Char) (c : Char) :
    digitsVal (cs ++ [c]) = digitsVal cs * 10 + dval c := by
  simp [digitsVal, List.foldl_concat]

theorem digitsVal_natDec (n : Nat) : digitsVal (natDec n) = n := by
  induction n using Nat.strong_induction_on with
  | _ n ih =>
    rw [natDec_eq n]
    by_cases h : n < 10
    · rw [if_pos h]
      show 0 * 10 + dval (natDigitChar n) = n
      rw [dval_natDigitChar n h]
      omega
    · rw [if_neg h, digitsVal_concat, ih (n / 10) (by omega),
        dval_natDigitChar (n % 10) (Nat.mod_lt _ (by omega))]
      omega

theorem natDec_all_digits (n : Nat) : (natDec n).all Char.isDigit = true := by
  rw [List.all_eq_true]
  intro c hc
  obtain ⟨m, rfl⟩ := natDec_mem n c hc
  exact natDigitChar_isDigit m

theorem atoi_natStr (n : Nat) : atoi (natStr n) = some (Int.ofNat n) := by
  obtain ⟨c, rest, hcr⟩ : ∃ c rest, natDec n = c :: rest := by
    cases h : natDec n with
    | nil => exact absurd h (natDec_ne_nil n)
    | cons c rest => exact ⟨c, rest, rfl⟩
  have hc : ∃ m, c = natDigitChar m := natDec_mem n c (by rw [hcr]; exact List.mem_cons_self c rest)
  obtain ⟨m, rfl⟩ := hc
  show atoi ⟨natDec n⟩ = some (Int.ofNat n)
  unfold atoi
  simp only [hcr]
  rw [if_neg (natDigitChar_ne_plus m), if_neg (natDigitChar_ne_minus m), if_pos]
  · rw [← hcr, digitsVal_natDec]
  · rw [← hcr]
    exact natDec_all_digits n

theorem natDec_no_underscore (n : Nat) : ∀ c ∈ natDec n, (c != '_') = true := by
  intro c hc
  obtain ⟨m, rfl⟩ := natDec_mem n c hc
  simpa using natDigitChar_ne_underscore m

/-! ### Sanitizer facts -/

theorem sanitizeChars_word (cs : List Char) :
    ∀ c ∈ sanitizeChars cs, isWordChar c = true := by
  intro c hc
  exact List.of_mem_filter hc

theorem fileSanitize_word (cs : List Char) :
    ∀ c ∈ fileSanitize cs, isWordChar c = true := by
  intro c hc
  exact List.of_mem_filter hc

theorem word_not_forbidden (c : Char) (h : isWordChar c = true) :
    excelForbidden c = false := by
  cases hf : excelForbidden c with
  | false => rfl
  | true =>
    exfalso
    simp only [excelForbidden, Bool.or_eq_true, beq_iff_eq] at hf
    rcases hf with ((((( rfl | rfl) | rfl) | rfl) | rfl) | rfl) | rfl <;>
      exact absurd h (by decide)

theorem word_ne_space (c : Char) (h : isWordChar c = true) : c ≠ ' ' := by
  intro hs
  subst hs
  exact absurd h (by decide)

theorem sanitizeChars_idem (cs : List Char) :
    sanitizeChars (sanitizeChars cs) = sanitizeChars cs := by
  have hw := sanitizeChars_word cs
  show ((( sanitizeChars cs).map (fun c => if c = ' ' then '_' else c)).filter
    (fun c => ! excelForbidden c)).filter isWordChar = sanitizeChars cs
  have hmap : (sanitizeChars cs).map (fun c => if c = ' ' then '_' else c) =
      (sanitizeChars cs).map id := by
    apply List.map_congr_left
    intro a ha
    simp [word_ne_space a (hw a ha)]
  rw [hmap, List.map_id]
  have hf1 : (sanitizeChars cs).filter (fun c => ! excelForbidden c) = sanitizeChars cs := by
    rw [List.filter_eq_self]
    intro a ha
    simp [word_not_forbidden a (hw a ha)]
  rw [hf1]
  rw [List.filter_eq_self]
  intro a ha
  exact hw a ha

theorem takeWhile_append_stop {p : Char → Bool} :
    ∀ (l₁ : List Char) (x : Char) (l₂ : List Char), (∀ c ∈ l₁, p c = true) → p x = false →
    (l₁ ++ x :: l₂).takeWhile p = l₁
  | [], x, l₂, _, hx => by simp [List.takeWhile, hx]
  | c :: l₁, x, l₂, h, hx => by
    simp only [List.cons_append, List.takeWhile]
    rw [h c (List.mem_cons_self c l₁)]
    simp only [List.cons.injEq, true_and]
    exact takeWhile_append_stop l₁ x l₂ (fun d hd => h d (List.mem_cons_of_mem c hd)) hx

theorem numKey_createFileName (i : Nat) (name : String) :
    numKey (createFileName i name) = some (Int.ofNat i) := by
  show atoi ⟨untilUnderscore (natDec i ++ '_' :: (fileSanitize name.data ++ ".csv".data))⟩ =
    some (Int.ofNat i)
  unfold untilUnderscore
  rw [takeWhile_append_stop (natDec i) '_' (fileSanitize name.data ++ ".csv".data)
    (natDec_no_underscore i) (by decide)]
  exact atoi_natStr i

/-! ### Worksheet-name sanitizer: branch characterization -/

theorem createSheetName_eq (index : Nat) (name : String) :
    createSheetName index name =
      if 31 < (natDec index).length + 1 + (sanitizeChars name.data).length then
        if (natDec index).length + 1 < 31 then
          (⟨(natDec index ++ ['_']) ++
            (sanitizeChars name.data).take (31 - ((natDec index).length + 1))⟩ : String)
        else if 31 < (natDec index).length then ⟨(natDec index).take 31⟩ else ⟨natDec index⟩
      else ⟨natDec index ++ '_' :: sanitizeChars name.data⟩ := by
  show (if (natDec index ++ '_' :: sanitizeChars name.data).length > 31 then
      if ((31 : Int) - ((natDec index ++ ['_']).length : Int)) > 0 then
        (⟨(natDec index ++ ['_']) ++ (sanitizeChars name.data).take
          ((31 : Int) - ((natDec index ++ ['_']).length : Int)).toNat⟩ : String)
      else if (natDec index).length > 31 then ⟨(natDec index).take 31⟩ else ⟨natDec index⟩
    else ⟨natDec index ++ '_' :: sanitizeChars name.data⟩) = _
  have e1 : (natDec index ++ '_' :: sanitizeChars name.data).length =
      (natDec index).length + 1 + (sanitizeChars name.data).length := by
    simp [List.length_append, List.length_cons]
    omega
  have e2 : ((natDec index ++ ['_']).length : Int) = ((natDec index).length : Int) + 1 := by
    simp [List.length_append]
  rw [e1, e2]
  by_cases h1 : 31 < (natDec index).length + 1 + (sanitizeChars name.data).length
  · rw [if_pos h1, if_pos h1]
    by_cases h2 : (natDec index).length + 1 < 31
    · rw [if_pos (show ((31 : Int) - (((natDec index).length : Int) + 1)) > 0 by omega),
        if_pos h2]
      have e3 : ((31 : Int) - (((natDec index).length : Int) + 1)).toNat =
          31 - ((natDec index).length + 1) := by omega
      rw [e3]
    · rw [if_neg (show ¬ ((31 : Int) - (((natDec index).length : Int) + 1)) > 0 by omega),
        if_neg h2]
  · rw [if_neg h1, if_neg h1]

theorem word_ne_forbidden (c : Char) (h : isWordChar c = true) :
    c ≠ '\\' ∧ c ≠ '/' ∧ c ≠ '?' ∧ c ≠ '*' ∧ c ≠ '[' ∧ c ≠ ']' ∧ c ≠ ':' := by
  refine ⟨?_, ?_, ?_, ?_, ?_, ?_, ?_⟩ <;> · rintro rfl; exact absurd h (by decide)

theorem createSheetName_word (index : Nat) (name : String) :
    ∀ c ∈ (createSheetName index name).data, isWordChar c = true := by
  intro c hc
  rw [createSheetName_eq] at hc
  split_ifs at hc with h1 h2 h3
  · rcases List.mem_append.mp hc with hl | hr
    · rcases List.mem_append.mp hl with hd | hu
      · obtain ⟨m, rfl⟩ := natDec_mem index c hd
        exact natDigitChar_word m
      · simp only [List.mem_singleton] at hu
        subst hu
        decide
    · exact sanitizeChars_word name.data c (List.mem_of_mem_take hr)
  · obtain ⟨m, rfl⟩ := natDec_mem index c (List.mem_of_mem_take hc)
    exact natDigitChar_word m
  · obtain ⟨m, rfl⟩ := natDec_mem index c hc
    exact natDigitChar_word m
  · rcases List.mem_append.mp hc with hl | hr
    · obtain ⟨m, rfl⟩ := natDec_mem index c hl
      exact natDigitChar_word m
    · rcases List.mem_cons.mp hr with rfl | hq
      · decide
      · exact sanitizeChars_word name.data c hq

theorem createSheetName_len (index : Nat) (name : String) :
    (createSheetName index name).length ≤ 31 := by
  show (createSheetName index name).data.length ≤ 31
  rw [createSheetName_eq]
  split_ifs with h1 h2 h3
  · simp only [List.length_append, List.length_take, List.length_singleton]
    omega
  · simp only [List.length_take]
    omega
  · show (natDec index).length ≤ 31
    omega
  · simp only [List.length_append, List.length_cons]
    omega

theorem sanitizeChars_of_word (cs : List Char) (hw : ∀ c ∈ cs, isWordChar c = true) :
    sanitizeChars cs = cs := by
  show ((cs.map (fun c => if c = ' ' then '_' else c)).filter
    (fun c => ! excelForbidden c)).filter isWordChar = cs
  have hmap : cs.map (fun c => if c = ' ' then '_' else c) = cs.map id := by
    apply List.map_congr_left
    intro a ha
    simp [word_ne_space a (hw a ha)]
  rw [hmap, List.map_id]
  have hf1 : cs.filter (fun c => ! excelForbidden c) = cs := by
    rw [List.filter_eq_self]
    intro a ha
    simp [word_not_forbidden a (hw a ha)]
  rw [hf1, List.filter_eq_self]
  exact hw

/-- Claim C4: for every positive position and every raw query name, the
generated worksheet name has length at most 31 and contains none of the
characters backslash, slash, question mark, asterisk, square brackets,
or colon. -/
theorem claim_C4 (index : Nat) (name : String) (hpos : 0 < index) :
    (createSheetName index name).length ≤ 31 ∧
    ∀ c ∈ (createSheetName index name).data,
      c ≠ '\\' ∧ c ≠ '/' ∧ c ≠ '?' ∧ c ≠ '*' ∧ c ≠ '[' ∧ c ≠ ']' ∧ c ≠ ':' :=
  ⟨createSheetName_len index name,
   fun c hc => word_ne_forbidden c (createSheetName_word index name c hc)⟩

theorem claim_C4_witness :
    0 < 1 ∧ (createSheetName 1 "Check SQL Server / Version?").length ≤ 31 :=
  ⟨by decide, (claim_C4 1 "Check SQL Server / Version?" (by decide)).1⟩

/-- Claim C3: when the combined name `<position>_<sanitizedName>`
exceeds 31 characters, the sanitizer keeps the `<position>_` prefix
intact and truncates the sanitized-name remainder so the result is
exactly 31 characters long; when, in addition, the prefix alone is 31
or more characters, it discards the name and returns the position
digits alone, truncated to at most 31 characters. -/
theorem claim_C3 (index : Nat) (name : String)
    (hover : 31 < (natDec index).length + 1 + (sanitizeChars name.data).length) :
    ((natDec index).length + 1 < 31 →
      createSheetName index name =
        ⟨(natDec index ++ ['_']) ++
          (sanitizeChars name.data).take (31 - ((natDec index).length + 1))⟩ ∧
      (createSheetName index name).length = 31) ∧
    (31 ≤ (natDec index).length + 1 →
      createSheetName index name = ⟨(natDec index).take 31⟩ ∧
      (createSheetName index name).length ≤ 31) := by
  constructor
  · intro hpre
    rw [createSheetName_eq, if_pos hover, if_pos hpre]
    refine ⟨rfl, ?_⟩
    show ((natDec index ++ ['_']) ++
      (sanitizeChars name.data).take (31 - ((natDec index).length + 1))).length = 31
    simp only [List.length_append, List.length_take, List.length_singleton]
    omega
  · intro hpre
    rw [createSheetName_eq, if_pos hover, if_neg (by omega : ¬ (natDec index).length + 1 < 31)]
    by_cases h3 : 31 < (natDec index).length
    · rw [if_pos h3]
      refine ⟨rfl, ?_⟩
      show ((natDec index).take 31).length ≤ 31
      simp only [List.length_take]
      omega
    · rw [if_neg h3]
      constructor
      · show (⟨natDec index⟩ : String) = ⟨(natDec index).take 31⟩
        rw [List.take_of_length_le (by omega)]
      · show (natDec index).length ≤ 31
        omega

theorem claim_C3_witness :
    (createSheetName 1 "abcdefghijklmnopqrstuvwxyzABCDEFGH").length = 31 ∧
    createSheetName (10 ^ 30) "abc" = ⟨(natDec (10 ^ 30)).take 31⟩ :=
  ⟨((claim_C3 1 "abcdefghijklmnopqrstuvwxyzABCDEFGH" (by decide)).1 (by decide)).2,
   ((claim_C3 (10 ^ 30) "abc" (by decide)).2 (by decide)).1⟩

/-- Claim C10: the truncation step of the worksheet-name sanitizer is
in bounds: whenever the combined name exceeds 31 characters and the
`<index>_` prefix is shorter than 31, the sanitized remainder has at
least `31 - len(prefix)` characters, so Go's `queryName[:maxNameLength]`
slice cannot fail and the result has exactly 31 characters. -/
theorem claim_C10 (index : Nat) (name : String)
    (hover : 31 < (natDec index).length + 1 + (sanitizeChars name.data).length)
    (hpre : (natDec index).length + 1 < 31) :
    31 - ((natDec index).length + 1) ≤ (sanitizeChars name.data).length ∧
    ((sanitizeChars name.data).take (31 - ((natDec index).length + 1))).length =
      31 - ((natDec index).length + 1) ∧
    (createSheetName index name).length = 31 := by
  refine ⟨by omega, ?_, ?_⟩
  · rw [List.length_take]
    omega
  · rw [createSheetName_eq, if_pos hover, if_pos hpre]
    show ((natDec index ++ ['_']) ++
      (sanitizeChars name.data).take (31 - ((natDec index).length + 1))).length = 31
    simp only [List.length_append, List.length_take, List.length_singleton]
    omega

theorem claim_C10_witness :
    31 - ((natDec 7).length + 1) ≤ (sanitizeChars "a very long query name with spaces".data).length ∧
    (createSheetName 7 "a very long query name with spaces").length = 31 :=
  ⟨(claim_C10 7 "a very long query name with spaces" (by decide) (by decide)).1,
   (claim_C10 7 "a very long query name with spaces" (by decide) (by decide)).2.2⟩

/-- Claim C5 counterexample: `createSheetName` is not idempotent for a
fixed position, because re-application prefixes the position again:
sanitizing the already-sanitized name `1_abc` at position 1 yields
`1_1_abc`, not `1_abc`. -/
theorem claim_C5_counterexample :
    createSheetName 1 (createSheetName 1 "abc") ≠ createSheetName 1 "abc" ∧
    createSheetName 1 "abc" = "1_abc" ∧
    createSheetName 1 (createSheetName 1 "abc") = "1_1_abc" := by
  refine ⟨by decide, by decide, by decide⟩

/-- Claim C5 (amended): the sanitizer is deterministic, and its
character-sanitation pass is idempotent — sanitizing the characters of
an already generated name (sheet name included) changes nothing; only
the position-prefixing step makes the full function non-idempotent. -/
theorem claim_C5_amended (p : Nat) (s : String) :
    createSheetName p s = createSheetName p s ∧
    sanitizeChars (sanitizeChars s.data) = sanitizeChars s.data ∧
    sanitizeChars (createSheetName p s).data = (createSheetName p s).data :=
  ⟨rfl, sanitizeChars_idem s.data,
   sanitizeChars_of_word (createSheetName p s).data (createSheetName_word p s)⟩

/-! ### Cell rendering -/

theorem cleanChars_eq (cs : List Char) :
    cleanChars cs = cs.map (fun c => if c = '\n' ∨ c = '\r' then ' ' else c) := by
  unfold cleanChars
  rw [List.map_map]
  apply List.map_congr_left
  intro a _
  by_cases h1 : a = '\n'
  · subst h1
    simp
  · by_cases h2 : a = '\r'
    · subst h2
      simp
    · simp [Function.comp, h1, h2]

theorem cleanChars_no_newline (cs : List Char) :
    '\n' ∉ cleanChars cs ∧ '\r' ∉ cleanChars cs := by
  rw [cleanChars_eq]
  constructor <;>
  · intro h
    obtain ⟨a, _, ha⟩ := List.mem_map.mp h
    by_cases hc : a = '\n' ∨ a = '\r'
    · rw [if_pos hc] at ha
      exact absurd ha (by decide)
    · rw [if_neg hc] at ha
      subst ha
      simp at hc

/-- Claim C2 counterexample: the earliest revision's CSV renderer
(part_001 `executeQuery`, line 176) does not apply the NULL rule: a
database NULL is rendered through `fmt.Sprintf("%v", ...)` as the text
`<nil>`, not as `NULL`, so the rendering rule is not applied
identically at every CSV destination in the repository. -/
theorem claim_C2_counterexample :
    renderCellCSVv0 Cell.null = "<nil>" ∧ renderCellCSVv0 Cell.null ≠ "NULL" := by
  exact ⟨by decide, by decide⟩

/-- Claim C2 (amended): in the direct-to-workbook revision and the
CSV-staging revision of app.go the rendering rule holds and is applied
identically whether the destination is a worksheet cell or a CSV
field: NULL renders as the literal `NULL`, byte slices are decoded and
every line-feed and carriage-return character is replaced by a single
space, other scalars render from their default text representation
with the same replacement, and rendered output never contains a
line-feed or carriage-return.  Only the earliest revision's CSV
renderer (part_001) deviates. -/
theorem claim_C2_amended :
    (∀ c, renderCellExcel c = renderCellCSV c) ∧
    renderCellExcel Cell.null = "NULL" ∧
    (∀ bs, renderCellExcel (Cell.bytes bs) = cleanText (decodeBytes bs)) ∧
    (∀ v, renderCellExcel (Cell.scalar v) = cleanText v) ∧
    (∀ cs, cleanChars cs = cs.map (fun c => if c = '\n' ∨ c = '\r' then ' ' else c)) ∧
    (∀ c, '\n' ∉ (renderCellExcel c).data ∧ '\r' ∉ (renderCellExcel c).data) := by
  refine ⟨fun c => by cases c <;> rfl, rfl, fun bs => rfl, fun v => rfl, cleanChars_eq, ?_⟩
  intro c
  cases c with
  | null => exact ⟨by decide, by decide⟩
  | bytes bs => exact cleanChars_no_newline (decodeBytes bs).data
  | scalar v => exact cleanChars_no_newline v.data

/-! ### Repeat-mode scheduling -/

theorem loopFrom_eq_alternate : ∀ (fuel total i : Nat), total - i ≤ fuel →
    loopFrom total fuel i = alternate (total - i)
  | 0, total, i, h => by
    have h0 : total - i = 0 := by omega
    rw [h0]
    rfl
  | fuel + 1, total, i, h => by
    simp only [loopFrom]
    by_cases hi : i < total
    · rw [if_pos hi]
      by_cases hlast : i < total - 1
      · rw [if_pos hlast, loopFrom_eq_alternate fuel total (i + 1) (by omega)]
        have h2 : total - i = (total - i - 2) + 2 := by omega
        have h3 : total - (i + 1) = (total - i - 2) + 1 := by omega
        rw [h2, h3]
        rfl
      · rw [if_neg hlast, loopFrom_eq_alternate fuel total (i + 1) (by omega)]
        have h1 : total - i = 1 := by omega
        have h0 : total - (i + 1) = 0 := by omega
        rw [h1, h0]
        rfl
    · rw [if_neg hi]
      have h0 : total - i = 0 := by omega
      rw [h0]
      rfl

theorem loopTrace_eq (total : Nat) : loopTrace total = alternate total := by
  have h := loopFrom_eq_alternate total total 0 (by omega)
  simpa [loopTrace] using h

theorem countRun_alternate : ∀ n, countRun (alternate n) = n
  | 0 => rfl
  | 1 => rfl
  | n + 2 => by
    have ih := countRun_alternate (n + 1)
    show countRun (Event.run :: Event.sleep :: alternate (n + 1)) = n + 2
    simp [countRun, List.filter_cons, Event.isRun] at ih ⊢
    omega

theorem countSleep_alternate : ∀ n, countSleep (alternate n) = n - 1
  | 0 => rfl
  | 1 => rfl
  | n + 2 => by
    have ih := countSleep_alternate (n + 1)
    show countSleep (Event.run :: Event.sleep :: alternate (n + 1)) = n + 1
    simp [countSleep, List.filter_cons, Event.isSleep] at ih ⊢
    omega

/-- Claim C6: for strictly positive interval (minutes) and duration
(hours), `main` runs exactly `floor(duration*60 / interval)` full
iterations of the sequence, with a sleep between consecutive
iterations and none after the final one; when either flag is zero (its
absent-flag default), it runs the sequence exactly once with no
sleep. -/
theorem claim_C6 (interval duration : Int) :
    (0 < interval → 0 < duration →
      mainTrace interval duration = alternate (duration.toNat * 60 / interval.toNat) ∧
      countRun (mainTrace interval duration) = duration.toNat * 60 / interval.toNat ∧
      countSleep (mainTrace interval duration) = duration.toNat * 60 / interval.toNat - 1) ∧
    ((interval = 0 ∨ duration = 0) →
      mainTrace interval duration = [Event.run] ∧
      countRun (mainTrace interval duration) = 1 ∧
      countSleep (mainTrace interval duration) = 0) := by
  constructor
  · intro hi hd
    have key : ((duration * 60).tdiv interval).toNat = duration.toNat * 60 / interval.toNat := by
      obtain ⟨D, rfl⟩ := Int.eq_ofNat_of_zero_le (le_of_lt hd)
      obtain ⟨I, rfl⟩ := Int.eq_ofNat_of_zero_le (le_of_lt hi)
      rfl
    have hmain : mainTrace interval duration =
        alternate (duration.toNat * 60 / interval.toNat) := by
      unfold mainTrace
      rw [if_pos ⟨hi, hd⟩, loopTrace_eq, key]
    refine ⟨hmain, ?_, ?_⟩
    · rw [hmain, countRun_alternate]
    · rw [hmain, countSleep_alternate]
  · intro h
    have hneg : ¬ (0 < interval ∧ 0 < duration) := by
      rcases h with rfl | rfl <;> simp
    unfold mainTrace
    rw [if_neg hneg]
    exact ⟨rfl, rfl, rfl⟩

theorem claim_C6_witness :
    countRun (mainTrace 15 2) = 8 ∧ countSleep (mainTrace 15 2) = 7 ∧
    mainTrace 0 7 = [Event.run] := by
  have h := (claim_C6 15 2).1 (by decide) (by decide)
  have h0 := (claim_C6 0 7).2 (Or.inl rfl)
  refine ⟨?_, ?_, h0.1⟩
  · rw [h.2.1]
    decide
  · rw [h.2.2]
    decide

/-- Claim C7 counterexample: a negative interval is not rejected as a
configuration error: with `interval = -1, duration = 2` the
orchestrator still performs one full pipeline run, so queries are
executed and an artifact is produced. -/
theorem claim_C7_counterexample :
    mainTrace (-1) 2 = [Event.run] ∧ countRun (mainTrace (-1) 2) = 1 := by
  exact ⟨by decide, by decide⟩

/-- Claim C7 (amended): negative interval or duration values are not
rejected before the run; any flag pair that is not strictly positive
in both components simply bypasses repeat mode, and the orchestrator
executes the full sequence exactly once. -/
theorem claim_C7_amended (interval duration : Int)
    (h : ¬ (0 < interval ∧ 0 < duration)) :
    mainTrace interval duration = [Event.run] ∧
    countRun (mainTrace interval duration) = 1 := by
  unfold mainTrace
  rw [if_neg h]
  exact ⟨rfl, rfl⟩

theorem claim_C7_witness :
    mainTrace (-3) 5 = [Event.run] ∧ countRun (mainTrace (-3) 5) = 1 :=
  claim_C7_amended (-3) 5 (by decide)

/-! ### Index sheet and direct-to-workbook run -/

theorem foldl_append_map {α β : Type} (g : α → β) :
    ∀ (l : List α) (acc : List β),
    l.foldl (fun a x => a ++ [g x]) acc = acc ++ l.map g
  | [], acc => by simp
  | x :: l, acc => by
    simp only [List.foldl_cons, List.map_cons]
    rw [foldl_append_map g l (acc ++ [g x])]
    simp

theorem indexSheet_eq (qs : List Query) :
    indexSheet qs = ["Sr.No", "Query", "Query Notes"] ::
      qs.enum.map (fun iq => [natStr (iq.1 + 1), iq.2.Query, iq.2.Notes]) := by
  unfold indexSheet
  rw [foldl_append_map]
  rfl

/-- Claim C9: the index unit always has header row
`Sr.No, Query, Query Notes` and exactly one row per catalog entry, in
catalog order, containing the entry's 1-based position, its raw SQL
statement text (`Query.Query`, not `Query.Name`), and its notes. -/
theorem claim_C9 (qs : List Query) :
    (indexSheet qs).length = qs.length + 1 ∧
    (indexSheet qs).head? = some ["Sr.No", "Query", "Query Notes"] ∧
    ∀ k (hk : k < qs.length),
      (indexSheet qs)[k + 1]? =
        some [natStr (k + 1), (qs.get ⟨k, hk⟩).Query, (qs.get ⟨k, hk⟩).Notes] := by
  rw [indexSheet_eq]
  refine ⟨by simp [List.enum_length], rfl, ?_⟩
  intro k hk
  rw [List.getElem?_cons_succ, List.getElem?_map, List.getElem?_enum,
    List.getElem?_eq_getElem hk]
  rfl

theorem claim_C9_witness :
    (indexSheet [⟨"A", "", "SELECT 1", "n1"⟩, ⟨"B", "", "SELECT 2", "n2"⟩]).length = 3 ∧
    (indexSheet [⟨"A", "", "SELECT 1", "n1"⟩, ⟨"B", "", "SELECT 2", "n2"⟩])[1]? =
      some ["1", "SELECT 1", "n1"] := by
  have h := claim_C9 [⟨"A", "", "SELECT 1", "n1"⟩, ⟨"B", "", "SELECT 2", "n2"⟩]
  refine ⟨h.1, ?_⟩
  rw [h.2.2 0 (by decide)]
  decide

theorem run_foldl (exec : Nat → Option TabularResult) :
    ∀ (l : List (Nat × Query)) (acc : RunResult),
    (l.foldl (runStep exec) acc).sheets = acc.sheets ++ (l.filterMap (fun iq =>
        (exec iq.1).map (fun t => (createSheetName (iq.1 + 1) iq.2.Name, renderSheet t)))) ∧
    (l.foldl (runStep exec) acc).failed = acc.failed ++
        ((l.filter (fun iq => (exec iq.1).isNone)).map (fun iq => iq.1))
  | [], acc => by simp
  | iq :: l, acc => by
    simp only [List.foldl_cons, List.filterMap_cons, List.filter_cons]
    cases hex : exec iq.1 with
    | none =>
      have ih := run_foldl exec l { acc with failed := acc.failed ++ [iq.1] }
      simp only [runStep, hex] at ih ⊢
      simp only [Option.map_none', Option.isNone_none, if_pos, List.map_cons]
      refine ⟨by rw [ih.1], ?_⟩
      rw [ih.2]
      simp
    | some t =>
      have ih := run_foldl exec l { acc with sheets := acc.sheets ++
        [(createSheetName (iq.1 + 1) iq.2.Name, renderSheet t)] }
      simp only [runStep, hex] at ih ⊢
      simp only [Option.map_some', Option.isNone_some, Bool.false_eq_true, if_neg,
        not_false_iff]
      refine ⟨?_, by rw [ih.2]⟩
      rw [ih.1]
      simp

theorem executeSQLQueriesAndCreateExcel_eq (qs : List Query)
    (exec : Nat → Option TabularResult) :
    (executeSQLQueriesAndCreateExcel qs exec).sheets =
      ("executed_queries", indexSheet qs) :: (qs.enum.filterMap (fun iq =>
        (exec iq.1).map (fun t => (createSheetName (iq.1 + 1) iq.2.Name, renderSheet t)))) ∧
    (executeSQLQueriesAndCreateExcel qs exec).failed =
      (qs.enum.filter (fun iq => (exec iq.1).isNone)).map (fun iq => iq.1) := by
  have h := run_foldl exec qs.enum ⟨[("executed_queries", indexSheet qs)], []⟩
  unfold executeSQLQueriesAndCreateExcel
  exact ⟨by rw [h.1]; rfl, by rw [h.2]; rfl⟩

theorem enum_get_mem {α : Type} (l : List α) (i : Nat) (h : i < l.length) :
    (i, l.get ⟨i, h⟩) ∈ l.enum := by
  apply List.getElem?_mem
  show l.enum[i]? = _
  rw [List.getElem?_enum, List.getElem?_eq_getElem h]
  rfl

/-- Claim C8: in the direct-to-workbook design, a catalog entry whose
statement fails to execute does not abort the run: the failing
position is logged, and every other entry whose statement succeeds
still produces its populated sheet (header row plus one row per
scanned result row). -/
theorem claim_C8 (qs : List Query) (exec : Nat → Option TabularResult)
    (j k : Nat) (t : TabularResult)
    (hj : j < qs.length) (hjf : exec j = none)
    (hk : k < qs.length) (hkt : exec k = some t) :
    j ∈ (executeSQLQueriesAndCreateExcel qs exec).failed ∧
    (createSheetName (k + 1) (qs.get ⟨k, hk⟩).Name, renderSheet t) ∈
      (executeSQLQueriesAndCreateExcel qs exec).sheets ∧
    (renderSheet t).length = t.rows.length + 1 := by
  obtain ⟨hsheets, hfailed⟩ := executeSQLQueriesAndCreateExcel_eq qs exec
  refine ⟨?_, ?_, by simp [renderSheet]⟩
  · rw [hfailed]
    apply List.mem_map.mpr
    refine ⟨(j, qs.get ⟨j, hj⟩), ?_, rfl⟩
    apply List.mem_filter.mpr
    exact ⟨enum_get_mem qs j hj, by simp [hjf]⟩
  · rw [hsheets]
    apply List.mem_cons_of_mem
    apply List.mem_filterMap.mpr
    exact ⟨(k, qs.get ⟨k, hk⟩), enum_get_mem qs k hk, by simp [hkt]⟩

theorem claim_C8_witness :
    0 ∈ (executeSQLQueriesAndCreateExcel
      [⟨"A", "", "SELECT 1", ""⟩, ⟨"B", "", "SELECT 2", ""⟩]
      (fun n => if n = 0 then none else some ⟨["X"], [[Cell.scalar "5"]]⟩)).failed ∧
    (createSheetName 2 "B", renderSheet ⟨["X"], [[Cell.scalar "5"]]⟩) ∈
      (executeSQLQueriesAndCreateExcel
        [⟨"A", "", "SELECT 1", ""⟩, ⟨"B", "", "SELECT 2", ""⟩]
        (fun n => if n = 0 then none else some ⟨["X"], [[Cell.scalar "5"]]⟩)).sheets := by
  have h := claim_C8 [⟨"A", "", "SELECT 1", ""⟩, ⟨"B", "", "SELECT 2", ""⟩]
    (fun n => if n = 0 then none else some ⟨["X"], [[Cell.scalar "5"]]⟩)
    0 1 ⟨["X"], [[Cell.scalar "5"]]⟩ (by decide) rfl (by decide) rfl
  exact ⟨h.1, h.2.1⟩

/-! ### Staging-merge sort -/

theorem goLess_keys {a b : String} {x y : Int}
    (ha : numKey a = some x) (hb : numKey b = some y) :
    goLess a b = decide (x < y) := by
  unfold goLess
  rw [ha, hb]

theorem goLe_iff {a b : String} {x y : Int}
    (ha : numKey a = some x) (hb : numKey b = some y) :
    goLe a b = true ↔ x ≤ y := by
  unfold goLe
  rw [goLess_keys hb ha]
  simp only [Bool.not_eq_true', decide_eq_false_iff_not, Int.not_lt]

theorem insertLe_perm (a : String) : ∀ l, (insertLe a l).Perm (a :: l)
  | [] => List.Perm.refl _
  | b :: l => by
    unfold insertLe
    by_cases h : goLe a b = true
    · rw [if_pos h]
    · rw [if_neg h]
      exact (((insertLe_perm a l).cons b)).trans (List.Perm.swap a b l)

theorem sortLe_perm : ∀ l, (sortLe l).Perm l
  | [] => List.Perm.refl _
  | a :: l => (insertLe_perm a (sortLe l)).trans ((sortLe_perm l).cons a)

theorem insertLe_pairwise (a : String) : ∀ (l : List String),
    (∀ s ∈ a :: l, (numKey s).isSome = true) → l.Pairwise keyLe →
    (insertLe a l).Pairwise keyLe
  | [], _, _ => by
    unfold insertLe
    exact List.pairwise_singleton keyLe a
  | b :: l, hall, hp => by
    obtain ⟨xa, hxa⟩ := Option.isSome_iff_exists.mp (hall a (List.mem_cons_self a _))
    obtain ⟨xb, hxb⟩ := Option.isSome_iff_exists.mp (hall b (by simp))
    unfold insertLe
    by_cases h : goLe a b = true
    · rw [if_pos h]
      have hab : xa ≤ xb := (goLe_iff hxa hxb).mp h
      apply List.Pairwise.cons
      · intro c hc
        rcases List.mem_cons.mp hc with rfl | hcl
        · exact ⟨xa, xb, hxa, hxb, hab⟩
        · obtain ⟨xb', xc, hxb', hxc, hle⟩ := List.rel_of_pairwise_cons hp hcl
          have hbb : xb = xb' := by
            rw [hxb] at hxb'
            exact Option.some.inj hxb'
          exact ⟨xa, xc, hxa, hxc, by omega⟩
      · exact hp
    · rw [if_neg h]
      have hba : xb < xa := by
        have := (goLe_iff hxa hxb).not.mp (by simpa using h)
        omega
      apply List.Pairwise.cons
      · intro c hc
        rcases List.mem_cons.mp ((insertLe_perm a l).mem_iff.mp hc) with rfl | hcl
        · exact ⟨xb, xa, hxb, hxa, le_of_lt hba⟩
        · exact List.rel_of_pairwise_cons hp hcl
      · apply insertLe_pairwise a l
        · intro s hs
          rcases List.mem_cons.mp hs with rfl | hsl
          · exact hall s (List.mem_cons_self s _)
          · exact hall s (List.mem_cons_of_mem a (List.mem_cons_of_mem b hsl))
        · exact (List.pairwise_cons.mp hp).2

theorem sortLe_pairwise : ∀ l, (∀ s ∈ l, (numKey s).isSome = true) →
    (sortLe l).Pairwise keyLe
  | [], _ => List.Pairwise.nil
  | a :: l, hall => by
    show (insertLe a (sortLe l)).Pairwise keyLe
    apply insertLe_pairwise
    · intro s hs
      rcases List.mem_cons.mp hs with rfl | hsl
      · exact hall s (List.mem_cons_self s _)
      · exact hall s (List.mem_cons_of_mem a ((sortLe_perm l).mem_iff.mp hsl))
    · exact sortLe_pairwise l (fun s hs => hall s (List.mem_cons_of_mem a hs))

theorem keyNe_symm : ∀ {x y : String}, keyNe x y → keyNe y x := by
  intro x y h a b hya hxb
  exact (h b a hxb hya).symm

theorem keyLt_of_le_ne {a b : String} (hle : keyLe a b) (hne : keyNe a b) : keyLt a b := by
  obtain ⟨x, y, hx, hy, hxy⟩ := hle
  exact ⟨x, y, hx, hy, lt_of_le_of_ne hxy (hne x y hx hy)⟩

theorem keyNe_of_lt {a b : String} (h : keyLt a b) : keyNe a b := by
  obtain ⟨x, y, hx, hy, hxy⟩ := h
  intro x' y' hx' hy'
  rw [hx] at hx'
  rw [hy] at hy'
  have hxx := Option.some.inj hx'
  have hyy := Option.some.inj hy'
  omega

theorem pairwise_keyLt_unique : ∀ (l₁ l₂ : List String), l₁.Perm l₂ →
    l₁.Pairwise keyLt → l₂.Pairwise keyLt → l₁ = l₂
  | [], l₂, hp, _, _ => (hp.symm.eq_nil).symm
  | a :: t₁, l₂, hp, h₁, h₂ => by
    cases l₂ with
    | nil => exact absurd hp.eq_nil (by simp)
    | cons b t₂ =>
      by_cases hab : a = b
      · subst hab
        rw [pairwise_keyLt_unique t₁ t₂ hp.cons_inv
          (List.pairwise_cons.mp h₁).2 (List.pairwise_cons.mp h₂).2]
      · exfalso
        have hbin : b ∈ a :: t₁ := hp.mem_iff.mpr (List.mem_cons_self b t₂)
        have hain : a ∈ b :: t₂ := hp.mem_iff.mp (List.mem_cons_self a t₁)
        have hb1 : b ∈ t₁ := by
          rcases List.mem_cons.mp hbin with h | h
          · exact absurd h.symm hab
          · exact h
        have ha2 : a ∈ t₂ := by
          rcases List.mem_cons.mp hain with h | h
          · exact absurd h hab
          · exact h
        have hlt1 : keyLt a b := List.rel_of_pairwise_cons h₁ hb1
        have hlt2 : keyLt b a := List.rel_of_pairwise_cons h₂ ha2
        obtain ⟨x, y, hx, hy, hxy⟩ := hlt1
        obtain ⟨y', x', hy', hx', hyx⟩ := hlt2
        rw [hx] at hx'
        rw [hy] at hy'
        have e1 := Option.some.inj hx'
        have e2 := Option.some.inj hy'
        omega

theorem createFileName_data (i : Nat) (name : String) :
    (createFileName i name).data =
      (natDec i ++ '_' :: fileSanitize name.data) ++ ".csv".data := by
  show natDec i ++ '_' :: (fileSanitize name.data ++ ".csv".data) = _
  simp [List.append_assoc]

theorem staging_hasCsv (i : Nat) (name : String) :
    hasCsvSuffix (createFileName i name) = true := by
  unfold hasCsvSuffix
  rw [createFileName_data]
  have hlen : ((natDec i ++ '_' :: fileSanitize name.data) ++ ".csv".data).length =
      (natDec i ++ '_' :: fileSanitize name.data).length + 4 := by
    simp [List.length_append]
    omega
  rw [hlen]
  have hdrop : ((natDec i ++ '_' :: fileSanitize name.data) ++ ".csv".data).drop
      ((natDec i ++ '_' :: fileSanitize name.data).length + 4 - 4) = ".csv".data := by
    rw [Nat.add_sub_cancel]
    exact List.drop_left _ _
  rw [hdrop]
  simp

theorem trimCsv_staging (i : Nat) (name : String) :
    trimCsv (createFileName i name) = ⟨natDec i ++ '_' :: fileSanitize name.data⟩ := by
  unfold trimCsv
  rw [if_pos (staging_hasCsv i name)]
  congr 1
  show (createFileName i name).data.take ((createFileName i name).data.length - 4) = _
  rw [createFileName_data]
  have hlen : ((natDec i ++ '_' :: fileSanitize name.data) ++ ".csv".data).length =
      (natDec i ++ '_' :: fileSanitize name.data).length + 4 := by
    simp [List.length_append]
    omega
  rw [hlen, Nat.add_sub_cancel]
  exact List.take_left _ _

theorem staging_ne_executed (i : Nat) (name : String) :
    (createFileName i name != "executed_queries.csv") = true := by
  simp only [bne_iff_ne, ne_eq]
  intro h
  have hd := congrArg String.data h
  rw [createFileName_data] at hd
  obtain ⟨c, rest, hcr⟩ : ∃ c rest, natDec i = c :: rest := by
    cases hh : natDec i with
    | nil => exact absurd hh (natDec_ne_nil i)
    | cons c rest => exact ⟨c, rest, rfl⟩
  rw [hcr] at hd
  have hc : c = 'e' := (List.cons.inj hd).1
  have hdig : c.isDigit = true := by
    obtain ⟨m, rfl⟩ := natDec_mem i c (by rw [hcr]; exact List.mem_cons_self c rest)
    exact natDigitChar_isDigit m
  rw [hc] at hdig
  exact absurd hdig (by decide)

theorem stagingFiles_length (qs : List Query) : (stagingFiles qs).length = qs.length := by
  simp [stagingFiles, List.enum_length]

theorem stagingFiles_allKey (qs : List Query) :
    ∀ s ∈ stagingFiles qs, (numKey s).isSome = true := by
  intro s hs
  obtain ⟨iq, _, rfl⟩ := List.mem_map.mp hs
  rw [numKey_createFileName]
  rfl

theorem stagingFiles_pairwise_lt (qs : List Query) : (stagingFiles qs).Pairwise keyLt := by
  rw [List.pairwise_iff_getElem]
  intro i j hi hj hij
  have hi2 : i < qs.length := by
    rw [← stagingFiles_length qs]
    exact hi
  have hj2 : j < qs.length := by
    rw [← stagingFiles_length qs]
    exact hj
  have ei : (stagingFiles qs)[i] = createFileName (i + 1) (qs.get ⟨i, hi2⟩).Name := by
    show (qs.enum.map _)[i] = _
    rw [List.getElem_map, List.getElem_enum]
    rfl
  have ej : (stagingFiles qs)[j] = createFileName (j + 1) (qs.get ⟨j, hj2⟩).Name := by
    show (qs.enum.map _)[j] = _
    rw [List.getElem_map, List.getElem_enum]
    rfl
  rw [ei, ej]
  exact ⟨Int.ofNat (i + 1), Int.ofNat (j + 1), numKey_createFileName _ _,
    numKey_createFileName _ _, Int.ofNat_lt.mpr (by omega)⟩

theorem mergeOrder_eq (qs : List Query) (listing : List String)
    (hperm : listing.Perm ("executed_queries.csv" :: stagingFiles qs)) :
    mergeOrder listing = "executed_queries.csv" :: stagingFiles qs := by
  unfold mergeOrder
  have hcanon : ("executed_queries.csv" :: stagingFiles qs).filter hasCsvSuffix =
      "executed_queries.csv" :: stagingFiles qs := by
    rw [List.filter_eq_self]
    intro a ha
    rcases List.mem_cons.mp ha with rfl | hst
    · decide
    · obtain ⟨iq, _, rfl⟩ := List.mem_map.mp hst
      exact staging_hasCsv _ _
  have h1 : (listing.filter hasCsvSuffix).Perm ("executed_queries.csv" :: stagingFiles qs) := by
    have := hperm.filter hasCsvSuffix
    rw [hcanon] at this
    exact this
  have hcanon2 : ("executed_queries.csv" :: stagingFiles qs).filter
      (fun f => f != "executed_queries.csv") = stagingFiles qs := by
    rw [List.filter_cons]
    have hfalse : (("executed_queries.csv" : String) != "executed_queries.csv") = false := by
      simp
    rw [hfalse]
    simp only [Bool.false_eq_true, if_neg, not_false_iff]
    rw [List.filter_eq_self]
    intro a ha
    obtain ⟨iq, _, rfl⟩ := List.mem_map.mp ha
    exact staging_ne_executed _ _
  have h2 : ((listing.filter hasCsvSuffix).filter
      (fun f => f != "executed_queries.csv")).Perm (stagingFiles qs) := by
    have := h1.filter (fun f => f != "executed_queries.csv")
    rw [hcanon2] at this
    exact this
  show "executed_queries.csv" :: sortLe ((listing.filter hasCsvSuffix).filter
    (fun f => f != "executed_queries.csv")) = "executed_queries.csv" :: stagingFiles qs
  congr 1
  apply pairwise_keyLt_unique _ _ ((sortLe_perm _).trans h2)
  · have hall : ∀ s ∈ (listing.filter hasCsvSuffix).filter
        (fun f => f != "executed_queries.csv"), (numKey s).isSome = true :=
      fun s hs => stagingFiles_allKey qs s (h2.mem_iff.mp hs)
    have hle := sortLe_pairwise _ hall
    have hne : (sortLe ((listing.filter hasCsvSuffix).filter
        (fun f => f != "executed_queries.csv"))).Pairwise keyNe := by
      have hstne : (stagingFiles qs).Pairwise keyNe :=
        (stagingFiles_pairwise_lt qs).imp (fun h => keyNe_of_lt h)
      exact (List.Perm.pairwise_iff keyNe_symm ((sortLe_perm _).trans h2)).mpr hstne
    exact (hle.and hne).imp (fun h => keyLt_of_le_ne h.1 h.2)
  · exact stagingFiles_pairwise_lt qs

theorem mergeSheetNames_eq (qs : List Query) (listing : List String)
    (hperm : listing.Perm ("executed_queries.csv" :: stagingFiles qs)) :
    mergeSheetNames listing = "executed_queries" ::
      qs.enum.map (fun iq =>
        (⟨natDec (iq.1 + 1) ++ '_' :: fileSanitize iq.2.Name.data⟩ : String)) := by
  unfold mergeSheetNames
  rw [mergeOrder_eq qs listing hperm]
  simp only [List.map_cons]
  rw [show trimCsv "executed_queries.csv" = "executed_queries" from by decide]
  apply congrArg
  unfold stagingFiles
  rw [List.map_map]
  apply List.map_congr_left
  intro iq _
  exact trimCsv_staging _ _

theorem filterMap_congr_map {α β : Type} (f : α → Option β) (g : α → β) :
    ∀ (l : List α), (∀ a ∈ l, f a = some (g a)) → l.filterMap f = l.map g
  | [], _ => rfl
  | a :: l, h => by
    rw [List.filterMap_cons, h a (List.mem_cons_self a l)]
    rw [List.map_cons,
      filterMap_congr_map f g l (fun b hb => h b (List.mem_cons_of_mem a hb))]

/-- Claim C1: for every well-formed catalog of length N all of whose
entries execute successfully, the produced workbook contains exactly
N+1 sheets, sheet 1 is always the `executed_queries` index unit, and
sheet k+1 corresponds to catalog entry k (1-indexed) — in the
direct-to-workbook realization, and in the staging-merge realization
for every order in which the staging directory may be listed. -/
theorem claim_C1 (qs : List Query) (exec : Nat → Option TabularResult)
    (hall : ∀ i, i < qs.length → (exec i).isSome = true) :
    ((executeSQLQueriesAndCreateExcel qs exec).sheets.length = qs.length + 1 ∧
     (executeSQLQueriesAndCreateExcel qs exec).sheets.head? =
       some ("executed_queries", indexSheet qs) ∧
     ∀ k (hk : k < qs.length),
       ((executeSQLQueriesAndCreateExcel qs exec).sheets.map Prod.fst)[k + 1]? =
         some (createSheetName (k + 1) (qs.get ⟨k, hk⟩).Name)) ∧
    (∀ listing, listing.Perm ("executed_queries.csv" :: stagingFiles qs) →
      (mergeSheetNames listing).length = qs.length + 1 ∧
      (mergeSheetNames listing).head? = some "executed_queries" ∧
      ∀ k (hk : k < qs.length),
        (mergeSheetNames listing)[k + 1]? =
          some ⟨natDec (k + 1) ++ '_' :: fileSanitize (qs.get ⟨k, hk⟩).Name.data⟩) := by
  have hsheets := (executeSQLQueriesAndCreateExcel_eq qs exec).1
  have hfm : qs.enum.filterMap (fun iq => (exec iq.1).map
      (fun t => (createSheetName (iq.1 + 1) iq.2.Name, renderSheet t))) =
      qs.enum.map (fun iq => (createSheetName (iq.1 + 1) iq.2.Name,
        renderSheet ((exec iq.1).getD ⟨[], []⟩))) := by
    apply filterMap_congr_map
    intro iq hiq
    have hget : qs[iq.1]? = some iq.2 := List.mem_enum_iff_getElem?.mp hiq
    have hlt : iq.1 < qs.length := by
      rcases List.getElem?_eq_some.mp hget with ⟨h, _⟩
      exact h
    obtain ⟨t, ht⟩ := Option.isSome_iff_exists.mp (hall iq.1 hlt)
    rw [ht]
    rfl
  constructor
  · rw [hsheets, hfm]
    refine ⟨by simp [List.enum_length], rfl, ?_⟩
    intro k hk
    rw [List.map_cons, List.getElem?_cons_succ, List.map_map, List.getElem?_map,
      List.getElem?_enum, List.getElem?_eq_getElem hk]
    rfl
  · intro listing hperm
    rw [mergeSheetNames_eq qs listing hperm]
    refine ⟨by simp [List.enum_length], rfl, ?_⟩
    intro k hk
    rw [List.getElem?_cons_succ, List.getElem?_map, List.getElem?_enum,
      List.getElem?_eq_getElem hk]
    rfl

theorem claim_C1_witness :
    (executeSQLQueriesAndCreateExcel
      [⟨"A", "", "SELECT 1", ""⟩, ⟨"B", "", "SELECT 2", ""⟩]
      (fun _ => some ⟨["X"], []⟩)).sheets.length = 3 ∧
    (mergeSheetNames ["2_B.csv", "executed_queries.csv", "1_A.csv"]).length = 3 ∧
    (mergeSheetNames ["2_B.csv", "executed_queries.csv", "1_A.csv"])[1]? = some "1_A" := by
  have h := claim_C1 [⟨"A", "", "SELECT 1", ""⟩, ⟨"B", "", "SELECT 2", ""⟩]
    (fun _ => some ⟨["X"], []⟩) (fun i _ => rfl)
  have hm := h.2 ["2_B.csv", "executed_queries.csv", "1_A.csv"] (by decide)
  refine ⟨h.1.1, hm.1, ?_⟩
  rw [hm.2.2 0 (by decide)]
  decide

/-- Sample values given in the specification: the worksheet variant of
the sanitizer maps position 1 and raw name `Sample Query Name!` to
`1_Sample_Query_Name`, and the file variant appends `.csv`. -/
theorem sanitize_sample_values :
    createSheetName 1 "Sample Query Name!" = "1_Sample_Query_Name" ∧
    createFileName 1 "Sample Query Name!" = "1_Sample_Query_Name.csv" :=
  ⟨by decide, by decide⟩
